import Mathlib

/-!
# Verification of the KAOS visibility pipeline (shallow embedding)

This file embeds, in Lean 4, the time-interval algebra, the viewing-cone
reducer, the ephemeris interpolator's error paths, the UTC-to-Unix time
conversion and the adaptive Hermite visibility finder of the KAOS code base,
and proves or refutes the specification's claims about them.

Machine reals (Python floats / mpmath arbitrary-precision reals) are embedded
as rationals `ℚ`: every arithmetic operation appearing in the embedded code
(field arithmetic, comparisons, max/min) is exact on `ℚ`, and no claim under
study depends on rounding.  Numerical oracles (polynomial root finding,
the adaptive step computation, scipy interpolation) are passed in as explicit
function parameters, while all surrounding control flow is translated
literally from the Python source.
-/

namespace Kaos

/-- Decidable equality for `Except`, used to evaluate embedded fallible
functions on concrete inputs with `decide`. -/
instance instDecEqExcept {ε α : Type} [DecidableEq ε] [DecidableEq α] :
    DecidableEq (Except ε α)
  | .error x, .error y =>
    if h : x = y then isTrue (by rw [h])
    else isFalse (by intro hh; injection hh; exact h ‹_›)
  | .error _, .ok _ => isFalse (by intro hh; exact Except.noConfusion hh)
  | .ok _, .error _ => isFalse (by intro hh; exact Except.noConfusion hh)
  | .ok x, .ok y =>
    if h : x = y then isTrue (by rw [h])
    else isFalse (by intro hh; injection hh; exact h ‹_›)

/-- `kaos.tuples.TimeInterval`: named pair `(start, end)` of Unix seconds.
The Python field `end` is a Lean keyword, so it is called `stop` here. -/
structure TimeInterval where
  start : ℚ
  stop : ℚ
deriving DecidableEq, Repr

/-! ## `kaos.utils.time_intervals.trim_poi_segments`

Literal translation of the `for` loop: a chain of `if/elif/elif/else`
appending to `ret_list`. -/

/-- One iteration of the `trim_poi_segments` loop body: the interval kept
(clipped) for one input element, or `none` when the element is skipped. -/
def trimOne (poi : TimeInterval) (interval : TimeInterval) : Option TimeInterval :=
  if interval.start > poi.stop ∨ interval.stop < poi.start then
    none
  else if interval.start < poi.stop ∧ interval.stop > poi.stop then
    some ⟨interval.start, poi.stop⟩
  else if interval.stop > poi.start ∧ interval.start < poi.start then
    some ⟨poi.start, interval.stop⟩
  else
    some ⟨interval.start, interval.stop⟩

/-- `kaos.utils.time_intervals.trim_poi_segments(interval_list, poi)`. -/
def trim_poi_segments (interval_list : List TimeInterval) (poi : TimeInterval) :
    List TimeInterval :=
  interval_list.filterMap (trimOne poi)

/-! ## The two `fuse_neighbor_intervals` implementations

Both Python functions iterate over `pairwise(input_list)`, which yields the
pairs `(x0,x1), (x1,x2), …, (x_{n-1}, None)`.  The recursions below consume
the underlying list directly: the two-element pattern `i :: j :: rest` is the
pair `(i, j)` with `j ≠ None`, and the one-element pattern `[i]` is the final
pair `(i, None)`. -/

/-- `input_list.sort(key=lambda x: x.start)`.  Python's `list.sort` is a
stable sort by the key; `List.insertionSort` with the non-strict key order is
the same (stable) sorting function. -/
def sortByStart (l : List TimeInterval) : List TimeInterval :=
  l.insertionSort (fun a b => a.start ≤ b.start)

/-- Loop of `kaos.utils.time_intervals.fuse_neighbor_intervals`: the state
`fused` is the Python variable `fused_interval_start` (`None` or a start
time). -/
def fuseLoopTI : Option ℚ → List TimeInterval → List TimeInterval
  | _, [] => []
  | fused, [i] =>
    -- final pair `(i, None)`: never fuse-able, flush
    match fused with
    | some s => [⟨s, i.stop⟩]
    | none => [⟨i.start, i.stop⟩]
  | fused, i :: j :: rest =>
    if i.stop = j.start then
      -- in a fuse-able interval; record the start only at the beginning
      fuseLoopTI (some (fused.getD i.start)) (j :: rest)
    else
      (match fused with
       | some s => (⟨s, i.stop⟩ : TimeInterval)
       | none => ⟨i.start, i.stop⟩) :: fuseLoopTI none (j :: rest)

/-- `kaos.utils.time_intervals.fuse_neighbor_intervals(input_list, assume_sorted)`
(returned `output_list`). -/
def fuse_neighbor_intervals (input_list : List TimeInterval)
    (assume_sorted : Bool := false) : List TimeInterval :=
  fuseLoopTI none (if assume_sorted then input_list else sortByStart input_list)

/-- Contents of the caller's `input_list` after
`kaos.utils.time_intervals.fuse_neighbor_intervals` returns: the function
first sorts the list in place (unless `assume_sorted`), then `pairwise`
executes `iterable.append(None)` on that same list object.  The entries are
`Option TimeInterval` because the appended sentinel is `None`. -/
def fuseInputAfterCall (input_list : List TimeInterval) (assume_sorted : Bool) :
    List (Option TimeInterval) :=
  ((if assume_sorted then input_list else sortByStart input_list).map some) ++ [none]

namespace IntervalUtils

/-- Loop of `kaos.utils.interval_utils.fuse_neighbor_intervals`: the state is
the Python flag `skip_next`. -/
def fuseLoopIU : Bool → List TimeInterval → List TimeInterval
  | _, [] => []
  | skip, [i] =>
    -- final pair `(i, None)`
    if skip then [] else [⟨i.start, i.stop⟩]
  | skip, i :: j :: rest =>
    if skip then fuseLoopIU false (j :: rest)
    else if i.stop = j.start then
      (⟨i.start, j.stop⟩ : TimeInterval) :: fuseLoopIU true (j :: rest)
    else
      (⟨i.start, i.stop⟩ : TimeInterval) :: fuseLoopIU false (j :: rest)

/-- `kaos.utils.interval_utils.fuse_neighbor_intervals(input_list, assume_sorted)`. -/
def fuse_neighbor_intervals (input_list : List TimeInterval)
    (assume_sorted : Bool := false) : List TimeInterval :=
  fuseLoopIU false (if assume_sorted then input_list else sortByStart input_list)

end IntervalUtils

/-- No interval has a fuse-able neighbour on both sides: no three consecutive
intervals `i, j, k` satisfy `i.end == j.start` and `j.end == k.start`.  This
is the assumption `For any interval, there is maximum of one neighbor.` stated
in the docstring of `kaos.utils.interval_utils.fuse_neighbor_intervals`. -/
def noDoubleNeighbor : List TimeInterval → Bool
  | i :: j :: k :: rest =>
    (!(i.stop == j.start && j.stop == k.start)) && noDoubleNeighbor (j :: k :: rest)
  | _ => true

theorem noDoubleNeighbor_tail {x : TimeInterval} {t : List TimeInterval}
    (h : noDoubleNeighbor (x :: t) = true) : noDoubleNeighbor t = true := by
  match t with
  | [] => rfl
  | [_] => rfl
  | j :: k :: rest =>
    simp only [noDoubleNeighbor, Bool.and_eq_true] at h ⊢
    exact h.2

/-- Core of the C10 equivalence: on a list where no interval has fuse-able
neighbours on both sides, the two fuse loops produce the same output. -/
theorem fuseLoop_agree : ∀ (n : ℕ) (l : List TimeInterval), l.length ≤ n →
    noDoubleNeighbor l = true → fuseLoopTI none l = IntervalUtils.fuseLoopIU false l := by
  intro n
  induction n with
  | zero =>
    intro l hl _
    have h0 : l = [] := List.length_eq_zero.mp (Nat.le_zero.mp hl)
    subst h0
    rfl
  | succ n ih =>
    intro l hl hnd
    match l with
    | [] => rfl
    | [i] => rfl
    | i :: j :: rest =>
      by_cases hij : i.stop = j.start
      · match rest with
        | [] => simp [fuseLoopTI, IntervalUtils.fuseLoopIU, hij]
        | k :: rs =>
          have hnd' := hnd
          simp only [noDoubleNeighbor, Bool.and_eq_true, Bool.not_eq_true',
            Bool.and_eq_false_iff, beq_eq_false_iff_ne, ne_eq, beq_iff_eq] at hnd'
          have hjk : ¬ j.stop = k.start := by
            rcases hnd'.1 with h | h
            · exact absurd hij h
            · exact h
          have hlen : (k :: rs).length ≤ n := by
            simp only [List.length_cons] at hl ⊢
            omega
          have hrec := ih (k :: rs) hlen (noDoubleNeighbor_tail (noDoubleNeighbor_tail hnd))
          simp [fuseLoopTI, IntervalUtils.fuseLoopIU, hij, hjk, hrec]
      · have hlen : (j :: rest).length ≤ n := by
          simp only [List.length_cons] at hl ⊢
          omega
        have hrec := ih (j :: rest) hlen (noDoubleNeighbor_tail hnd)
        simp [fuseLoopTI, IntervalUtils.fuseLoopIU, hij, hrec]

/-- C8: `trim_poi_segments` is not idempotent.  On the straddling interval
`(-5, 15)` with bound `(0, 10)` the first branch taken is the
`start < poi.end and end > poi.end` one, which clips only the right end, so
one application yields `(-5, 10)` (not inside the bound, contrary to the
function's docstring) while a second application clips the left end too. -/
theorem trim_not_idempotent_eval :
    trim_poi_segments [⟨-5, 15⟩] ⟨0, 10⟩ = [⟨-5, 10⟩] ∧
    trim_poi_segments (trim_poi_segments [⟨-5, 15⟩] ⟨0, 10⟩) ⟨0, 10⟩ = [⟨0, 10⟩] ∧
    trim_poi_segments (trim_poi_segments [⟨-5, 15⟩] ⟨0, 10⟩) ⟨0, 10⟩ ≠
      trim_poi_segments [⟨-5, 15⟩] ⟨0, 10⟩ := by
  refine ⟨by decide, by decide, by decide⟩

/-- C9: `fuse_neighbor_intervals` always mutates its input list: after the
call, the caller's list is the (possibly sorted) original with a `None`
sentinel appended by `pairwise`, and in particular it never equals its
pre-call value. -/
theorem fuse_neighbor_intervals_mutates_input (l : List TimeInterval) (b : Bool) :
    fuseInputAfterCall l b =
      ((if b then l else sortByStart l).map some) ++ [none] ∧
    (fuseInputAfterCall l b).getLast? = some none ∧
    fuseInputAfterCall l b ≠ l.map some := by
  refine ⟨rfl, List.getLast?_concat _, fun h => ?_⟩
  have hlen : l.length + 1 = l.length := by
    have h2 := congrArg List.length h
    cases b <;>
      simpa [fuseInputAfterCall, sortByStart, List.length_insertionSort] using h2
  omega

/-- Consecutive intervals are ordered by start and do not overlap
(`i.start ≤ j.start` and `i.end ≤ j.start`): the assumptions "sorted with
respect to start values" and "intervals don't overlap" of both fuse
implementations. -/
def sortedNonOverlapping : List TimeInterval → Bool
  | i :: j :: rest =>
    (decide (i.start ≤ j.start) && decide (i.stop ≤ j.start)) &&
      sortedNonOverlapping (j :: rest)
  | _ => true

/-- C10 (counterexample): the list `[(0,1), (1,2), (2,3)]` is sorted by
start, its intervals do not overlap, and each boundary value (`1` and `2`)
is shared by exactly two intervals, yet the two `fuse_neighbor_intervals`
implementations disagree on it: `kaos.utils.time_intervals` fuses the whole
chain while `kaos.utils.interval_utils` fuses only the first pair. -/
theorem fuse_impls_disagree_on_chain :
    sortedNonOverlapping [⟨0, 1⟩, ⟨1, 2⟩, ⟨2, 3⟩] = true ∧
    fuse_neighbor_intervals [⟨0, 1⟩, ⟨1, 2⟩, ⟨2, 3⟩] true = [⟨0, 3⟩] ∧
    IntervalUtils.fuse_neighbor_intervals [⟨0, 1⟩, ⟨1, 2⟩, ⟨2, 3⟩] true =
      [⟨0, 2⟩, ⟨2, 3⟩] ∧
    fuse_neighbor_intervals [⟨0, 1⟩, ⟨1, 2⟩, ⟨2, 3⟩] true ≠
      IntervalUtils.fuse_neighbor_intervals [⟨0, 1⟩, ⟨1, 2⟩, ⟨2, 3⟩] true := by
  refine ⟨by decide, by decide, by decide, by decide⟩

/-- C10 (amended): for every list of non-overlapping intervals sorted by
start in which at most two intervals share any one boundary **and no interval
has a fuse-able neighbour on both sides** (the extra assumption documented in
`kaos.utils.interval_utils`), the two `fuse_neighbor_intervals`
implementations return equal output lists. -/
theorem fuse_impls_agree (l : List TimeInterval)
    (hsorted : sortedNonOverlapping l = true)
    (hnd : noDoubleNeighbor l = true) :
    fuse_neighbor_intervals l true = IntervalUtils.fuse_neighbor_intervals l true := by
  unfold fuse_neighbor_intervals IntervalUtils.fuse_neighbor_intervals
  simpa using fuseLoop_agree l.length l le_rfl hnd

/-- Witness for `fuse_impls_agree` at the concrete input `[(0,1), (1,2)]`. -/
theorem fuse_impls_agree_witness :
    sortedNonOverlapping [⟨0, 1⟩, ⟨1, 2⟩] = true ∧
    noDoubleNeighbor [⟨0, 1⟩, ⟨1, 2⟩] = true ∧
    fuse_neighbor_intervals [⟨0, 1⟩, ⟨1, 2⟩] true =
      IntervalUtils.fuse_neighbor_intervals [⟨0, 1⟩, ⟨1, 2⟩] true :=
  ⟨by decide, by decide, fuse_impls_agree [⟨0, 1⟩, ⟨1, 2⟩] (by decide) (by decide)⟩

/-! ## `kaos.utils.time_intervals.calculate_common_intervals` -/

/-- Modelled from the spec: `TimeInterval.intersection`.  It is called by
`calculate_common_intervals_helper` (`src/kaos/utils/time_intervals.py:23`)
but defined nowhere under `src/` — `kaos.tuples.TimeInterval` is a bare
namedtuple.  Per the spec's data model ("`TimeInterval` ... Invariant:
`start ≤ end`. Empty when `start = end`") and interval algebra
("`intersect_pair(a,b)` ...: pairwise intersection"), the intersection of two
intervals is `(max(a.start, b.start), min(a.end, b.end))` when that interval
is non-empty, and `None` (falsy) otherwise. -/
def TimeInterval.intersection (a b : TimeInterval) : Option TimeInterval :=
  let s := max a.start b.start
  let e := min a.stop b.stop
  if s < e then some ⟨s, e⟩ else none

/-- `kaos.utils.time_intervals.calculate_common_intervals_helper`: the nested
loop appending every truthy `interval1.intersection(interval2)`. -/
def calculate_common_intervals_helper (intervals1 intervals2 : List TimeInterval) :
    List TimeInterval :=
  intervals1.flatMap fun i1 => intervals2.filterMap fun i2 => i1.intersection i2

/-- `kaos.utils.time_intervals.calculate_common_intervals`.  On the empty
list the Python function recurses forever; the claims only concern non-empty
input, and the `[]` equation below is an arbitrary value for that
unreachable case. -/
def calculate_common_intervals : List (List TimeInterval) → List TimeInterval
  | [] => []
  | [l] => l
  | l :: rest => calculate_common_intervals_helper l (calculate_common_intervals rest)

/-- The non-empty intersection of a selection of intervals, one from each
list: `none` when the selection's common intersection is empty.  (Spec-side
definition used to state C2.) -/
def interAll : List TimeInterval → Option TimeInterval
  | [] => none
  | [x] => if x.start < x.stop then some x else none
  | x :: rest => (interAll rest).bind fun y => x.intersection y

theorem interAll_cons_of_ne_nil (x : TimeInterval) {t : List TimeInterval}
    (h : t ≠ []) :
    interAll (x :: t) = (interAll t).bind fun z => x.intersection z := by
  obtain ⟨p, ps, rfl⟩ := List.exists_cons_of_ne_nil h
  rfl

/-- C2: for a non-empty list of lists of proper intervals, an interval is in
the output of `calculate_common_intervals` exactly when it is the non-empty
intersection of one interval selected from each input list. -/
theorem calculate_common_intervals_correct (ls : List (List TimeInterval))
    (hne : ls ≠ [])
    (hproper : ∀ l ∈ ls, ∀ x ∈ l, x.start < x.stop) :
    ∀ y : TimeInterval, y ∈ calculate_common_intervals ls ↔
      ∃ picks, List.Forall₂ (fun x l' => x ∈ l') picks ls ∧ interAll picks = some y := by
  induction ls with
  | nil => exact absurd rfl hne
  | cons l rest ih =>
    intro y
    match rest with
    | [] =>
      constructor
      · intro hy
        have hpy : y.start < y.stop := hproper l (List.mem_cons_self _ _) y hy
        exact ⟨[y], List.Forall₂.cons hy List.Forall₂.nil, by simp [interAll, hpy]⟩
      · rintro ⟨picks, hf, hi⟩
        match picks, hf with
        | [x], List.Forall₂.cons hx List.Forall₂.nil =>
          simp only [interAll] at hi
          split_ifs at hi
          exact Option.some_injective _ hi ▸ hx
    | m :: ms =>
      have hrest : ∀ l' ∈ (m :: ms), ∀ x ∈ l', x.start < x.stop :=
        fun l' hl' => hproper l' (List.mem_cons_of_mem _ hl')
      have ihr := ih (by simp) hrest
      have hunfold : calculate_common_intervals (l :: m :: ms) =
          calculate_common_intervals_helper l (calculate_common_intervals (m :: ms)) := rfl
      constructor
      · intro hy
        rw [hunfold] at hy
        simp only [calculate_common_intervals_helper, List.mem_flatMap,
          List.mem_filterMap] at hy
        obtain ⟨i1, hi1, i2, hi2, hint⟩ := hy
        obtain ⟨picks', hf', hall'⟩ := (ihr i2).mp hi2
        have hne' : picks' ≠ [] := by
          intro h
          subst h
          exact absurd hf'.length_eq (by simp)
        refine ⟨i1 :: picks', List.Forall₂.cons hi1 hf', ?_⟩
        rw [interAll_cons_of_ne_nil i1 hne', hall']
        exact hint
      · rintro ⟨picks, hf, hi⟩
        match picks, hf with
        | x1 :: picks', List.Forall₂.cons hx1 hf' =>
          have hne' : picks' ≠ [] := by
            intro h
            subst h
            exact absurd hf'.length_eq (by simp)
          rw [interAll_cons_of_ne_nil x1 hne'] at hi
          obtain ⟨z, hz, hxz⟩ := Option.bind_eq_some.mp hi
          rw [hunfold]
          simp only [calculate_common_intervals_helper, List.mem_flatMap,
            List.mem_filterMap]
          exact ⟨x1, hx1, z, (ihr z).mpr ⟨picks', hf', hz⟩, hxz⟩

/-- Witness for `calculate_common_intervals_correct`: the interval `(1, 2)`,
the intersection of `(0, 2)` and `(1, 3)`, is in the common intervals of
`[[(0,2)], [(1,3)]]`. -/
theorem calculate_common_intervals_correct_witness :
    ([[⟨0, 2⟩], [⟨1, 3⟩]] : List (List TimeInterval)) ≠ [] ∧
    (∀ l ∈ ([[⟨0, 2⟩], [⟨1, 3⟩]] : List (List TimeInterval)),
      ∀ x ∈ l, x.start < x.stop) ∧
    (⟨1, 2⟩ : TimeInterval) ∈ calculate_common_intervals [[⟨0, 2⟩], [⟨1, 3⟩]] :=
  ⟨by decide, by decide,
    (calculate_common_intervals_correct [[⟨0, 2⟩], [⟨1, 3⟩]] (by decide) (by decide)
        ⟨1, 2⟩).mpr
      ⟨[⟨0, 2⟩, ⟨1, 3⟩],
        List.Forall₂.cons (by decide) (List.Forall₂.cons (by decide) List.Forall₂.nil),
        by decide⟩⟩

/-! ## `kaos.algorithm.view_cone.reduce_poi`

`_view_cone_calc` performs arbitrary-precision trigonometry on the satellite
state; its only couplings to `reduce_poi` are (a) the four tangency times it
returns — `mp.nint((1/ω)·angle)` for angles wrapped into `[0, 2π]`, hence
non-negative times — and (b) the `ValueError` it raises when an angle is
complex.  It is embedded as an oracle `ℕ → Option (List ConeRoots)` giving,
for each day index `m`, the list of 4-tuples of roots (one per supplied
satellite position/velocity pair), or `none` for the `ValueError` case.  All
of `reduce_poi`'s own control flow is translated literally. -/

/-- The four tangency times returned by one `_view_cone_calc` call. -/
structure ConeRoots where
  r1 : ℚ
  r2 : ℚ
  r3 : ℚ
  r4 : ℚ
deriving DecidableEq, Repr

/-- Body of one `m` iteration of `reduce_poi` after the roots are computed:
`t_1, t_2 = max(roots[:, 0]), min(roots[:, 1])`,
`t_3, t_4 = min(roots[:, 2]), max(roots[:, 3])`, then the interval
construction.  In Python, indexing `roots[:, 0]` of an empty array raises
(no satellite pairs); the wrap-around `ViewConeError` is raised after the
appends, but the raise discards the whole computation, so checking it before
returning the appended intervals is equivalent. -/
def viewConeIntervalsForDay (poi : TimeInterval) (m : ℕ) (rts : List ConeRoots) :
    Except String (List TimeInterval) :=
  match rts with
  | [] => Except.error "IndexError: too many indices for array"
  | r0 :: rs =>
    let t1 := (rs.map ConeRoots.r1).foldl max r0.r1
    let t2 := (rs.map ConeRoots.r2).foldl min r0.r2
    let t3 := (rs.map ConeRoots.r3).foldl min r0.r3
    let t4 := (rs.map ConeRoots.r4).foldl max r0.r4
    let day : ℚ := 24 * 60 * 60
    let part1 : List TimeInterval :=
      if t3 < t1 then [⟨poi.start + t3, poi.start + t1⟩]
      else [⟨poi.start + m * day, poi.start + t1⟩,
            ⟨poi.start + t3, poi.start + (m + 1) * day⟩]
    let part2 : List TimeInterval :=
      if t2 < t4 then [⟨poi.start + t2, poi.start + t4⟩]
      else [⟨poi.start + m * day, poi.start + t4⟩,
            ⟨poi.start + t2, poi.start + (m + 1) * day⟩]
    if t2 > t4 ∧ t3 > t1 then
      Except.error "ViewConeError: Internal Viewing cone error"
    else
      Except.ok (part1 ++ part2)

/-- One `m` iteration including the `except ValueError` → `ViewConeError`
translation around `_view_cone_calc`. -/
def viewConeDay (oracle : ℕ → Option (List ConeRoots)) (poi : TimeInterval)
    (m : ℕ) : Except String (List TimeInterval) :=
  match oracle m with
  | none => Except.error "ViewConeError: Unsupported viewing cone and orbit configuration."
  | some rts => viewConeIntervalsForDay poi m rts

/-- The `while m < expected_final_m` loop of `reduce_poi`, accumulating
`interval_list` and aborting on the first exception. -/
def gatherConeIntervals (oracle : ℕ → Option (List ConeRoots)) (poi : TimeInterval) :
    List ℕ → Except String (List TimeInterval)
  | [] => Except.ok []
  | m :: ms =>
    match viewConeDay oracle poi m with
    | Except.error e => Except.error e
    | Except.ok l =>
      match gatherConeIntervals oracle poi ms with
      | Except.error e => Except.error e
      | Except.ok rest => Except.ok (l ++ rest)

/-- `kaos.algorithm.view_cone.reduce_poi`: raise on a reversed POI, run the
day loop for `m = 0, …, ceil((poi.end − poi.start)/86400) − 1`, then trim the
accumulated intervals to the POI.  No fusing is performed. -/
def reduce_poi (oracle : ℕ → Option (List ConeRoots)) (poi : TimeInterval) :
    Except String (List TimeInterval) :=
  if poi.start > poi.stop then Except.error "ValueError: poi.start is after poi.end"
  else
    match gatherConeIntervals oracle poi
        (List.range (Int.toNat ⌈(poi.stop - poi.start) / (24 * 60 * 60 : ℚ)⌉)) with
    | Except.error e => Except.error e
    | Except.ok cands => Except.ok (trim_poi_segments cands poi)

theorem foldl_min_nonneg : ∀ (l : List ℚ) (init : ℚ), 0 ≤ init →
    (∀ x ∈ l, 0 ≤ x) → 0 ≤ l.foldl min init
  | [], _, hi, _ => hi
  | x :: xs, init, hi, hl =>
    foldl_min_nonneg xs (min init x)
      (le_min hi (hl x (List.mem_cons_self _ _)))
      (fun y hy => hl y (List.mem_cons_of_mem _ hy))

theorem foldl_max_nonneg : ∀ (l : List ℚ) (init : ℚ), 0 ≤ init →
    0 ≤ l.foldl max init
  | [], _, hi => hi
  | x :: xs, init, hi =>
    foldl_max_nonneg xs (max init x) (le_max_of_le_left hi)

theorem viewConeIntervalsForDay_start (poi : TimeInterval) (m : ℕ)
    (rts : List ConeRoots) (l : List TimeInterval)
    (h : viewConeIntervalsForDay poi m rts = Except.ok l)
    (hr : ∀ r ∈ rts, 0 ≤ r.r1 ∧ 0 ≤ r.r2 ∧ 0 ≤ r.r3 ∧ 0 ≤ r.r4) :
    ∀ c ∈ l, poi.start ≤ c.start := by
  match rts with
  | [] => exact absurd h (by simp [viewConeIntervalsForDay])
  | r0 :: rs =>
    have hr0 := hr r0 (List.mem_cons_self _ _)
    have ht2 : 0 ≤ (rs.map ConeRoots.r2).foldl min r0.r2 := by
      refine foldl_min_nonneg _ _ hr0.2.1 ?_
      intro x hx
      obtain ⟨r, hrmem, rfl⟩ := List.mem_map.mp hx
      exact (hr r (List.mem_cons_of_mem _ hrmem)).2.1
    have ht3 : 0 ≤ (rs.map ConeRoots.r3).foldl min r0.r3 := by
      refine foldl_min_nonneg _ _ hr0.2.2.1 ?_
      intro x hx
      obtain ⟨r, hrmem, rfl⟩ := List.mem_map.mp hx
      exact (hr r (List.mem_cons_of_mem _ hrmem)).2.2.1
    have hm : (0 : ℚ) ≤ (m : ℚ) * (24 * 60 * 60) := by positivity
    simp only [viewConeIntervalsForDay] at h
    split_ifs at h with herr h31 h24 h24b <;>
      first
        | exact Except.noConfusion h
        | (obtain rfl := Except.ok.inj h;
           intro c hc;
           simp only [List.mem_append, List.mem_cons, List.not_mem_nil, or_false] at hc;
           rcases hc with (rfl | rfl) | rfl | rfl <;> (simp <;> linarith))
        | (obtain rfl := Except.ok.inj h;
           intro c hc;
           simp only [List.mem_append, List.mem_cons, List.not_mem_nil, or_false] at hc;
           rcases hc with (rfl | rfl) | rfl <;> (simp <;> linarith))
        | (obtain rfl := Except.ok.inj h;
           intro c hc;
           simp only [List.mem_append, List.mem_cons, List.not_mem_nil, or_false] at hc;
           rcases hc with rfl | rfl | rfl <;> (simp <;> linarith))
        | (obtain rfl := Except.ok.inj h;
           intro c hc;
           simp only [List.mem_append, List.mem_cons, List.not_mem_nil, or_false] at hc;
           rcases hc with rfl | rfl <;> (simp <;> linarith))

theorem gatherConeIntervals_mem (oracle : ℕ → Option (List ConeRoots))
    (poi : TimeInterval) : ∀ (ms : List ℕ) (cands : List TimeInterval),
    gatherConeIntervals oracle poi ms = Except.ok cands →
    ∀ c ∈ cands, ∃ m, ∃ rts, ∃ l, oracle m = some rts ∧
      viewConeIntervalsForDay poi m rts = Except.ok l ∧ c ∈ l := by
  intro ms
  induction ms with
  | nil =>
    intro cands h c hc
    rw [gatherConeIntervals] at h
    cases Except.ok.inj h
    cases hc
  | cons m ms ih =>
    intro cands h c hc
    rw [gatherConeIntervals] at h
    rcases hday : viewConeDay oracle poi m with e | dl
    · rw [hday] at h
      cases h
    · rw [hday] at h
      rcases hrest : gatherConeIntervals oracle poi ms with e | rest
      · rw [hrest] at h
        cases h
      · rw [hrest] at h
        cases Except.ok.inj h
        rcases List.mem_append.mp hc with hcd | hcr
        · rcases horacle : oracle m with _ | rts
          · rw [viewConeDay, horacle] at hday
            cases hday
          · rw [viewConeDay, horacle] at hday
            exact ⟨m, rts, dl, horacle, hday, hcd⟩
        · exact ih rest hrest c hcr

theorem trim_poi_segments_bounds (cands : List TimeInterval) (poi : TimeInterval)
    (hc : ∀ c ∈ cands, poi.start ≤ c.start) :
    ∀ w ∈ trim_poi_segments cands poi,
      poi.start ≤ w.start ∧ (w.start < poi.stop → w.stop ≤ poi.stop) := by
  intro w hw
  simp only [trim_poi_segments, List.mem_filterMap] at hw
  obtain ⟨c, hcmem, ht⟩ := hw
  have hcs := hc c hcmem
  unfold trimOne at ht
  split_ifs at ht with h1 h2 h3
  · obtain rfl := Option.some.inj ht
    exact ⟨hcs, fun _ => le_rfl⟩
  · exact absurd hcs (not_le.mpr h3.2)
  · obtain rfl := Option.some.inj ht
    push_neg at h2
    exact ⟨hcs, fun hlt => h2 hlt⟩

/-- C3 (amended): when `reduce_poi` returns normally, its result is exactly
the emitted candidate intervals trimmed to the original POI by
`trim_poi_segments` — no fusing is applied, so adjacent pieces may remain —
and (the tangency time offsets being non-negative) every returned interval
starts at or after `poi.start`, and every returned interval that starts
before `poi.end` also ends at or before `poi.end`.  (An interval touching the
POI only at `poi.end` is returned unclamped.) -/
theorem reduce_poi_trim_no_fuse (oracle : ℕ → Option (List ConeRoots))
    (poi : TimeInterval)
    (hnonneg : ∀ m rts, oracle m = some rts → ∀ r ∈ rts,
        0 ≤ r.r1 ∧ 0 ≤ r.r2 ∧ 0 ≤ r.r3 ∧ 0 ≤ r.r4) :
    ∀ l, reduce_poi oracle poi = Except.ok l →
      (∃ cands,
        gatherConeIntervals oracle poi
          (List.range (Int.toNat ⌈(poi.stop - poi.start) / (24 * 60 * 60 : ℚ)⌉)) =
            Except.ok cands ∧
        l = trim_poi_segments cands poi ∧
        ∀ c ∈ cands, poi.start ≤ c.start) ∧
      ∀ w ∈ l, poi.start ≤ w.start ∧ (w.start < poi.stop → w.stop ≤ poi.stop) := by
  intro l h
  rw [reduce_poi] at h
  split_ifs at h with hrev
  rcases hg : gatherConeIntervals oracle poi
      (List.range (Int.toNat ⌈(poi.stop - poi.start) / (24 * 60 * 60 : ℚ)⌉)) with e | cands
  · rw [hg] at h
    cases h
  · rw [hg] at h
    obtain rfl := Except.ok.inj h
    have hcands : ∀ c ∈ cands, poi.start ≤ c.start := by
      intro c hc
      obtain ⟨m, rts, dl, horacle, hday, hcl⟩ :=
        gatherConeIntervals_mem oracle poi _ cands hg c hc
      exact viewConeIntervalsForDay_start poi m rts dl hday
        (hnonneg m rts horacle) c hcl
    exact ⟨⟨cands, rfl, rfl, hcands⟩, trim_poi_segments_bounds cands poi hcands⟩

/-- A `_view_cone_calc` behaviour: a single satellite sample whose four
tangency times for every day are `(50000, 50000, 30000, 70000)` (all inside
`[0, 86164]`, the range `mp.nint(angle/ω)` can produce). -/
def c3Roots : ℕ → Option (List ConeRoots) :=
  fun _ => some [⟨50000, 50000, 30000, 70000⟩]

theorem c3Roots_eval :
    reduce_poi c3Roots ⟨0, 50000⟩ =
      Except.ok [⟨30000, 50000⟩, ⟨50000, 70000⟩] := by
  have hM : (⌈(125 / 216 : ℚ)⌉).toNat = 1 := by
    have h1 : ⌈(125 / 216 : ℚ)⌉ = 1 := by
      rw [Int.ceil_eq_iff] <;> norm_num
    rw [h1]
    rfl
  rw [reduce_poi]
  norm_num
  rw [hM]
  norm_num [List.range_succ, gatherConeIntervals, viewConeDay, viewConeIntervalsForDay, c3Roots]
  simp only [trim_poi_segments, List.filterMap_cons, trimOne]
  norm_num

/-- C3 (counterexample): with POI `(0, 50000)` (one day) and tangency times
`(50000, 50000, 30000, 70000)`, `reduce_poi` returns normally with
`[(30000, 50000), (50000, 70000)]`: the two returned intervals are adjacent
(no fusing is performed), and the second extends past `poi.end`. -/
theorem reduce_poi_not_fused_or_clamped :
    reduce_poi c3Roots ⟨0, 50000⟩ =
      Except.ok [⟨30000, 50000⟩, ⟨50000, 70000⟩] ∧
    (⟨30000, 50000⟩ : TimeInterval).stop = (⟨50000, 70000⟩ : TimeInterval).start ∧
    ¬ (⟨50000, 70000⟩ : TimeInterval).stop ≤ (⟨0, 50000⟩ : TimeInterval).stop :=
  ⟨c3Roots_eval, rfl, by norm_num⟩

/-- Witness for `reduce_poi_trim_no_fuse` at the concrete run of
`c3Roots_eval`. -/
theorem reduce_poi_trim_no_fuse_witness :
    reduce_poi c3Roots ⟨0, 50000⟩ =
      Except.ok [⟨30000, 50000⟩, ⟨50000, 70000⟩] ∧
    ∀ w ∈ [(⟨30000, 50000⟩ : TimeInterval), ⟨50000, 70000⟩],
      (⟨0, 50000⟩ : TimeInterval).start ≤ w.start ∧
        (w.start < (⟨0, 50000⟩ : TimeInterval).stop →
          w.stop ≤ (⟨0, 50000⟩ : TimeInterval).stop) :=
  ⟨c3Roots_eval,
    (reduce_poi_trim_no_fuse c3Roots ⟨0, 50000⟩
      (by
        intro m rts h r hr
        cases h
        simp only [List.mem_cons, List.not_mem_nil, or_false] at hr
        subst hr
        refine ⟨by norm_num, by norm_num, by norm_num, by norm_num⟩)
      _ c3Roots_eval).2⟩

/-! ## `kaos.algorithm.visibility_finder.VisibilityFinder.find_approx_coeffs`

`self.visibility` and `self.visibility_first_derivative` evaluate the
satellite/site geometry through the interpolator; they enter
`find_approx_coeffs` only through their values at the two interval endpoints,
so they are abstracted as function parameters `vis` and `visd`.  The claim is
about exact arithmetic, so the mpmath reals are embedded as `ℚ`. -/

/-- `VisibilityFinder.find_approx_coeffs((start_time, end_time))`, returning
`[t_3_coeffs, t_2_coeffs, t_coeffs, const]`. -/
def find_approx_coeffs (vis visd : ℚ → ℚ) (start_time end_time : ℚ) : List ℚ :=
  let time_step := end_time - start_time
  let visibility_start := vis start_time
  let visibility_end := vis end_time
  let visibility_first_start := visd start_time
  let visibility_first_end := visd end_time
  let const :=
    ((-2 * start_time ^ 3 * visibility_start) / time_step ^ 3) +
    ((2 * start_time ^ 3 * visibility_end) / time_step ^ 3) +
    ((-1 * start_time ^ 2 * end_time * visibility_first_end) / time_step ^ 2) +
    ((-1 * 3 * start_time ^ 2 * visibility_start) / time_step ^ 2) +
    ((3 * start_time ^ 2 * visibility_end) / time_step ^ 2) +
    ((-1 * start_time * end_time ^ 2 * visibility_first_start) / time_step ^ 2) +
    visibility_start
  let t_coeffs :=
    ((6 * start_time ^ 2 * visibility_start) / time_step ^ 3) +
    ((-1 * 6 * start_time ^ 2 * visibility_end) / time_step ^ 3) +
    ((start_time ^ 2 * visibility_first_end) / time_step ^ 2) +
    ((2 * start_time * end_time * visibility_first_start) / time_step ^ 2) +
    ((2 * start_time * end_time * visibility_first_end) / time_step ^ 2) +
    ((6 * start_time * visibility_start) / time_step ^ 2) +
    ((-1 * 6 * start_time * visibility_end) / time_step ^ 2) +
    ((end_time ^ 2 * visibility_first_start) / time_step ^ 2)
  let t_2_coeffs :=
    ((-1 * 6 * start_time * visibility_start) / time_step ^ 3) +
    ((6 * start_time * visibility_end) / time_step ^ 3) +
    ((-1 * start_time * visibility_first_start) / time_step ^ 2) +
    ((-1 * 2 * start_time * visibility_first_end) / time_step ^ 2) +
    ((-1 * 2 * end_time * visibility_first_start) / time_step ^ 2) +
    ((-1 * end_time * visibility_first_end) / time_step ^ 2) +
    ((-1 * 3 * visibility_start) / time_step ^ 2) +
    ((3 * visibility_end) / time_step ^ 2)
  let t_3_coeffs :=
    ((2 * visibility_start) / time_step ^ 3) +
    ((-1 * 2 * visibility_end) / time_step ^ 3) +
    (visibility_first_start / time_step ^ 2) +
    (visibility_first_end / time_step ^ 2)
  [t_3_coeffs, t_2_coeffs, t_coeffs, const]

/-- Value of the cubic `a3·t³ + a2·t² + a1·t + a0`. -/
def cubicEval (a3 a2 a1 a0 t : ℚ) : ℚ :=
  a3 * t ^ 3 + a2 * t ^ 2 + a1 * t + a0

/-- Value of the derivative `3a3·t² + 2a2·t + a1` of that cubic. -/
def cubicDerivEval (a3 a2 a1 t : ℚ) : ℚ :=
  3 * a3 * t ^ 2 + 2 * a2 * t + a1

set_option maxHeartbeats 1600000 in
/-- C5: for `start < end`, the cubic with the coefficients returned by
`find_approx_coeffs` matches the visibility values at both endpoints and its
derivative matches the visibility first derivative at both endpoints — it is
the cubic Hermite interpolant. -/
theorem find_approx_coeffs_hermite (vis visd : ℚ → ℚ) (ts te : ℚ) (h : ts < te) :
    cubicEval ((find_approx_coeffs vis visd ts te).getD 0 0)
        ((find_approx_coeffs vis visd ts te).getD 1 0)
        ((find_approx_coeffs vis visd ts te).getD 2 0)
        ((find_approx_coeffs vis visd ts te).getD 3 0) ts = vis ts ∧
    cubicEval ((find_approx_coeffs vis visd ts te).getD 0 0)
        ((find_approx_coeffs vis visd ts te).getD 1 0)
        ((find_approx_coeffs vis visd ts te).getD 2 0)
        ((find_approx_coeffs vis visd ts te).getD 3 0) te = vis te ∧
    cubicDerivEval ((find_approx_coeffs vis visd ts te).getD 0 0)
        ((find_approx_coeffs vis visd ts te).getD 1 0)
        ((find_approx_coeffs vis visd ts te).getD 2 0) ts = visd ts ∧
    cubicDerivEval ((find_approx_coeffs vis visd ts te).getD 0 0)
        ((find_approx_coeffs vis visd ts te).getD 1 0)
        ((find_approx_coeffs vis visd ts te).getD 2 0) te = visd te := by
  have hstep : te - ts ≠ 0 := sub_ne_zero.mpr h.ne'
  simp only [find_approx_coeffs, cubicEval, cubicDerivEval, List.getD_cons_zero,
    List.getD_cons_succ]
  refine ⟨?_, ?_, ?_, ?_⟩ <;> (field_simp; ring)

/-- Witness for `find_approx_coeffs_hermite` at `vis = id`,
`visd = const 1`, on the interval `[0, 1]`. -/
theorem find_approx_coeffs_hermite_witness :
    (0 : ℚ) < 1 ∧
    (cubicEval ((find_approx_coeffs id (fun _ => 1) 0 1).getD 0 0)
        ((find_approx_coeffs id (fun _ => 1) 0 1).getD 1 0)
        ((find_approx_coeffs id (fun _ => 1) 0 1).getD 2 0)
        ((find_approx_coeffs id (fun _ => 1) 0 1).getD 3 0) 0 = id (0 : ℚ) ∧
    cubicEval ((find_approx_coeffs id (fun _ => 1) 0 1).getD 0 0)
        ((find_approx_coeffs id (fun _ => 1) 0 1).getD 1 0)
        ((find_approx_coeffs id (fun _ => 1) 0 1).getD 2 0)
        ((find_approx_coeffs id (fun _ => 1) 0 1).getD 3 0) 1 = id (1 : ℚ) ∧
    cubicDerivEval ((find_approx_coeffs id (fun _ => 1) 0 1).getD 0 0)
        ((find_approx_coeffs id (fun _ => 1) 0 1).getD 1 0)
        ((find_approx_coeffs id (fun _ => 1) 0 1).getD 2 0) 0 = 1 ∧
    cubicDerivEval ((find_approx_coeffs id (fun _ => 1) 0 1).getD 0 0)
        ((find_approx_coeffs id (fun _ => 1) 0 1).getD 1 0)
        ((find_approx_coeffs id (fun _ => 1) 0 1).getD 2 0) 1 = 1) :=
  ⟨by norm_num, find_approx_coeffs_hermite id (fun _ => 1) 0 1 (by norm_num)⟩

/-! ## `kaos.algorithm.interpolator.Interpolator`

The database tables behind `Satellite.get_by_id`,
`OrbitSegment.get_by_platform_and_time` and `OrbitRecord.get_by_segment`
(`src/kaos/models/models.py`) are embedded as explicit row lists; the two
query helpers are translated from their SQLAlchemy filter/order-by
definitions.  `scipy.interpolate` (reached through `vector_interp`) is an
external numeric routine that can itself raise — notably, `interp1d` with the
default `kind="quadratic"` raises scipy's `ValueError` on a segment with only
two samples — so it is abstracted as a *fallible* function parameter whose
result (pair or exception) `interpolate` passes through unchanged.  scipy
knows nothing of kaos's exception classes, so the one assumption made about
it is that the errors it raises are not `InterpolationError`s.  A single
`interpolate` call on a fresh `Interpolator` is modelled (the memo dictionary
only caches results of these same queries). -/

/-- 3-vector of rationals (embedding of position/velocity tuples). -/
abbrev Vec3 : Type := ℚ × ℚ × ℚ

/-- Row of the `OrbitSegment` table. -/
structure OrbitSegmentRow where
  segment_id : ℕ
  platform_id : ℕ
  start_time : ℚ
  end_time : ℚ
deriving DecidableEq, Repr

/-- Row of the `OrbitRecord` table. -/
structure OrbitRecordRow where
  segment_id : ℕ
  time : ℚ
  position : Vec3
  velocity : Vec3

/-- The database state the interpolator queries. -/
structure Database where
  satellite_ids : List ℕ
  segments : List OrbitSegmentRow
  records : List OrbitRecordRow

/-- Python exception kinds raised by the interpolator code paths. -/
inductive PyError where
  | valueError (msg : String)
  | interpolationError (msg : String)
deriving DecidableEq, Repr

/-- Whether an exception is an `InterpolationError`. -/
def PyError.isInterpolationError : PyError → Bool
  | .valueError _ => false
  | .interpolationError _ => true

/-- `Satellite.get_by_id(platform_id)`: the satellite, or `None`. -/
def satellite_get_by_id (db : Database) (platform_id : ℕ) : Option ℕ :=
  db.satellite_ids.find? (fun s => s = platform_id)

/-- `OrbitSegment.get_by_platform_and_time(platform_id, timestamp)`: among
segments with matching platform and `start_time ≤ timestamp ≤ end_time`,
the one with the greatest `start_time` (`order_by desc` + `first`), or
`None`. -/
def get_by_platform_and_time (db : Database) (platform_id : ℕ) (timestamp : ℚ) :
    Option OrbitSegmentRow :=
  (db.segments.filter fun s =>
      s.platform_id = platform_id ∧ s.start_time ≤ timestamp ∧ timestamp ≤ s.end_time)
    |>.foldl (fun best s =>
      match best with
      | none => some s
      | some b => if b.start_time < s.start_time then some s else some b) none

/-- `OrbitRecord.get_by_segment(segment_id)`: all records of the segment. -/
def get_by_segment (db : Database) (segment_id : ℕ) : List OrbitRecordRow :=
  db.records.filter fun r => r.segment_id = segment_id

/-- `Interpolator.__init__(platform_id)`: raises `ValueError` when the
platform id does not exist; otherwise the instance is bound to it. -/
def interpolator_init (db : Database) (platform_id : ℕ) : Except PyError ℕ :=
  if (satellite_get_by_id db platform_id).isNone then
    Except.error (PyError.valueError "platform_id does not exist")
  else
    Except.ok platform_id

/-- `Interpolator.interpolate(timestamp)` on a fresh instance, with
`vector_interp` (scipy) abstracted as the fallible `vecInterp` applied to the
segment's records and the timestamp for positions and velocities
respectively; its outcome — the `(position, velocity)` pair or an exception
it raises — propagates out of `interpolate` unchanged. -/
def interpolate (db : Database)
    (vecInterp : List OrbitRecordRow → ℚ → Except PyError (Vec3 × Vec3))
    (platform_id : ℕ) (timestamp : ℚ) : Except PyError (Vec3 × Vec3) :=
  match get_by_platform_and_time db platform_id timestamp with
  | none => Except.error (PyError.interpolationError "No segment found")
  | some segment =>
    let records := get_by_segment db segment.segment_id
    if records.length < 2 then
      Except.error (PyError.interpolationError "No orbit records found")
    else
      vecInterp records timestamp

theorem satellite_get_by_id_eq_none (db : Database) (pid : ℕ) :
    satellite_get_by_id db pid = none ↔ pid ∉ db.satellite_ids := by
  rw [satellite_get_by_id, List.find?_eq_none]
  constructor
  · intro h hmem
    have hc := h pid hmem
    simp at hc
  · intro h x hx
    simp only [decide_eq_true_eq]
    intro hxp
    exact h (hxp ▸ hx)

/-- An empty database: no satellite has id `1`. -/
def emptyDb : Database := ⟨[], [], []⟩

/-- C6 (counterexample): constructing the interpolator for an unknown
platform id raises a plain `ValueError`, which is not an
`InterpolationError` — there is no `UnknownSatellite` interpolation-error
kind in the code (`src/kaos/algorithm/interpolator.py:17`,
`src/kaos/errors.py`), and `test_interpolate__no_platform_id` pins the
`ValueError`. -/
theorem interpolator_init_not_interpolation_error :
    interpolator_init emptyDb 1 =
      Except.error (PyError.valueError "platform_id does not exist") ∧
    (PyError.valueError "platform_id does not exist").isInterpolationError = false :=
  ⟨rfl, rfl⟩

/-- C6 (amended): construction fails with a plain `ValueError` — not an
`InterpolationError`; no `UnknownSatellite` kind exists — exactly when no
satellite has the platform id; a single `interpolate(t)` call raises
`InterpolationError` (`No segment found`) exactly when no segment of the
platform contains `t`, and `InterpolationError` (`No orbit records found`)
exactly when the located segment has fewer than two samples; when the
segment has at least two samples the call defers to the scipy vector
interpolation and returns its outcome unchanged — the `(position, velocity)`
pair when scipy succeeds, or scipy's own propagated error (e.g. the
`ValueError` of the default quadratic kind on a 2-sample segment), which is
not an `InterpolationError`.  The premise `hsci` states exactly that scipy
never raises kaos's `InterpolationError`. -/
theorem interpolator_error_cases (db : Database)
    (vecInterp : List OrbitRecordRow → ℚ → Except PyError (Vec3 × Vec3))
    (hsci : ∀ records timestamp e, vecInterp records timestamp = Except.error e →
      e.isInterpolationError = false)
    (pid : ℕ) (t : ℚ) :
    (interpolator_init db pid =
        Except.error (PyError.valueError "platform_id does not exist") ↔
      pid ∉ db.satellite_ids) ∧
    (pid ∈ db.satellite_ids → interpolator_init db pid = Except.ok pid) ∧
    (interpolate db vecInterp pid t =
        Except.error (PyError.interpolationError "No segment found") ↔
      get_by_platform_and_time db pid t = none) ∧
    (∀ seg, get_by_platform_and_time db pid t = some seg →
      (interpolate db vecInterp pid t =
          Except.error (PyError.interpolationError "No orbit records found") ↔
        (get_by_segment db seg.segment_id).length < 2) ∧
      (2 ≤ (get_by_segment db seg.segment_id).length →
        interpolate db vecInterp pid t =
          vecInterp (get_by_segment db seg.segment_id) t)) := by
  refine ⟨?_, ?_, ?_, ?_⟩
  · rw [interpolator_init]
    split_ifs with hs
    · exact iff_of_true rfl
        ((satellite_get_by_id_eq_none db pid).mp (Option.isNone_iff_eq_none.mp hs))
    · refine iff_of_false (by simp) (fun h => ?_)
      exact hs (Option.isNone_iff_eq_none.mpr
        ((satellite_get_by_id_eq_none db pid).mpr h))
  · intro hmem
    rw [interpolator_init]
    split_ifs with hs
    · exact absurd hmem
        ((satellite_get_by_id_eq_none db pid).mp (Option.isNone_iff_eq_none.mp hs))
    · rfl
  · rw [interpolate]
    rcases hseg : get_by_platform_and_time db pid t with _ | seg
    · exact iff_of_true rfl rfl
    · refine iff_of_false (fun h => ?_) (fun h => Option.noConfusion h)
      dsimp only at h
      split_ifs at h
      · exact absurd (PyError.interpolationError.inj (Except.error.inj h)) (by decide)
      · exact absurd (hsci _ _ _ h) (by decide)
  · intro seg hseg
    rw [interpolate, hseg]
    dsimp only
    constructor
    · split_ifs with hlen
      · exact iff_of_true rfl hlen
      · refine iff_of_false (fun h => ?_) (fun h => hlen h)
        exact absurd (hsci _ _ _ h) (by decide)
    · intro hlen
      split_ifs with hlt
      · exact absurd hlen (by omega)
      · rfl

/-- A database with one satellite (id 1), one segment (id 0, spanning
`[0, 10]`) and two records in that segment. -/
def db1 : Database :=
  ⟨[1], [⟨0, 1, 0, 10⟩],
    [⟨0, 2, ((0 : ℚ), 0, 0), ((0 : ℚ), 0, 0)⟩,
     ⟨0, 8, ((1 : ℚ), 1, 1), ((1 : ℚ), 1, 1)⟩]⟩

/-- A concrete stand-in for scipy's `interp1d`-based `vector_interp`: a run
in which scipy succeeds and returns a pair. -/
def vi1 : List OrbitRecordRow → ℚ → Except PyError (Vec3 × Vec3) :=
  fun _ _ => Except.ok (((0 : ℚ), 0, 0), ((0 : ℚ), 0, 0))

/-- Witness for `interpolator_error_cases`: on `db1` at `t = 5`, the
segment is found and the call returns the vector-interpolation routine's
outcome, here a pair. -/
theorem interpolator_error_cases_witness :
    get_by_platform_and_time db1 1 5 = some ⟨0, 1, 0, 10⟩ ∧
    2 ≤ (get_by_segment db1 0).length ∧
    interpolate db1 vi1 1 5 = vi1 (get_by_segment db1 0) 5 ∧
    vi1 (get_by_segment db1 0) 5 = Except.ok (((0 : ℚ), 0, 0), ((0 : ℚ), 0, 0)) :=
  ⟨rfl, by decide,
    ((interpolator_error_cases db1 vi1
        (fun _ _ _ h => Except.noConfusion h) 1 5).2.2.2 ⟨0, 1, 0, 10⟩ rfl).2 (by decide),
    rfl⟩

/-! ## `kaos.algorithm.visibility_finder.VisibilityFinder.determine_visibility`

The numeric inner do-while (`bound_time_step_error` iterated to tolerance)
produces one positive step per outer iteration, and `find_visibility`
(mpmath `polyroots` on the Hermite cubic) produces the real roots considered
for that subinterval.  Both are numerical procedures on mpmath reals; they
are embedded as an oracle *trace*: a list of `(new_time_step, real roots)`
pairs, one per outer-loop iteration, consumed in order.  The visibility
function enters `determine_visibility` itself only through its sign at
`start_time` and `end_time`, so it is abstracted as `vis : ℚ → ℚ`.  The
outer loop's own control flow — the loop condition, the root filter
`subinterval_start ≤ root ≤ subinterval_end`, the access toggling, and the
final consistency check — is translated literally.  A trace shorter than the
run models a prefix of the loop; theorems about complete runs do not need a
completeness hypothesis because the loop guard already ignores surplus
entries. -/

/-- The `for root in roots` body: toggle `access_start`, emitting a window
`(access_start, root)` whenever an access closes. -/
def processRoots (roots : List ℚ) (st : Option ℚ × List (ℚ × ℚ)) :
    Option ℚ × List (ℚ × ℚ) :=
  roots.foldl (fun st root =>
    match st.1 with
    | none => (some root, st.2)
    | some access_start => (none, st.2 ++ [(access_start, root)])) st

/-- The `while subinterval_end < end_time` loop.  `subinterval_end` is
initialised to `start_time` and each iteration ends with
`subinterval_start = subinterval_end`, so the guard always tests the current
`subinterval_start`. -/
def vfLoop (end_time : ℚ) : List (ℚ × List ℚ) → ℚ → Option ℚ → List (ℚ × ℚ) →
    ℚ × Option ℚ × List (ℚ × ℚ)
  | [], subinterval_start, access_start, sat_accesses =>
    (subinterval_start, access_start, sat_accesses)
  | (step, rts) :: rest, subinterval_start, access_start, sat_accesses =>
    if subinterval_start < end_time then
      let subinterval_end := subinterval_start + step
      let roots := rts.filter fun root =>
        root ≤ subinterval_end ∧ root ≥ subinterval_start
      let st := processRoots roots (access_start, sat_accesses)
      vfLoop end_time rest subinterval_end st.1 st.2
    else
      (subinterval_start, access_start, sat_accesses)

/-- `VisibilityFinder.determine_visibility()` for the search interval
`(start_time, end_time)` under the oracle trace. -/
def determine_visibility (vis : ℚ → ℚ) (start_time end_time : ℚ)
    (trace : List (ℚ × List ℚ)) : Except String (List (ℚ × ℚ)) :=
  let access_start : Option ℚ := if vis start_time > 0 then some start_time else none
  let st := vfLoop end_time trace start_time access_start []
  match st.2.1 with
  | some access_start =>
    if vis end_time ≤ 0 then
      Except.error "Visibility interval started but did not end"
    else
      Except.ok (st.2.2 ++ [(access_start, end_time)])
  | none => Except.ok st.2.2

/-- C4: at the end of the search interval, with an access still open the
function raises `VisibilityFinderError` exactly when `V(end_time) ≤ 0` and
otherwise appends the final window `(access_start, end_time)`; with no access
open it never raises and appends nothing. -/
theorem determine_visibility_end_behavior (vis : ℚ → ℚ) (qs qe : ℚ)
    (trace : List (ℚ × List ℚ)) :
    ((∃ a, (vfLoop qe trace qs (if vis qs > 0 then some qs else none) []).2.1 = some a) →
      ((∃ msg, determine_visibility vis qs qe trace = Except.error msg) ↔ vis qe ≤ 0)) ∧
    (∀ a, (vfLoop qe trace qs (if vis qs > 0 then some qs else none) []).2.1 = some a →
      0 < vis qe →
      determine_visibility vis qs qe trace =
        Except.ok
          ((vfLoop qe trace qs (if vis qs > 0 then some qs else none) []).2.2 ++ [(a, qe)])) ∧
    ((vfLoop qe trace qs (if vis qs > 0 then some qs else none) []).2.1 = none →
      determine_visibility vis qs qe trace =
        Except.ok (vfLoop qe trace qs (if vis qs > 0 then some qs else none) []).2.2) := by
  have hd : determine_visibility vis qs qe trace =
      match (vfLoop qe trace qs (if vis qs > 0 then some qs else none) []).2.1 with
      | some a =>
        if vis qe ≤ 0 then Except.error "Visibility interval started but did not end"
        else Except.ok
          ((vfLoop qe trace qs (if vis qs > 0 then some qs else none) []).2.2 ++ [(a, qe)])
      | none =>
        Except.ok (vfLoop qe trace qs (if vis qs > 0 then some qs else none) []).2.2 := rfl
  refine ⟨?_, ?_, ?_⟩
  · rintro ⟨a, ha⟩
    rw [hd, ha]
    dsimp only
    by_cases hv : vis qe ≤ 0
    · rw [if_pos hv]
      exact iff_of_true ⟨_, rfl⟩ hv
    · rw [if_neg hv]
      exact iff_of_false (fun ⟨_, hmsg⟩ => Except.noConfusion hmsg) hv
  · intro a ha hv
    rw [hd, ha]
    dsimp only
    rw [if_neg (by linarith)]
  · intro ha
    rw [hd, ha]

/-- Witness for `determine_visibility_end_behavior`: visibility is positive
throughout `[0, 10]`, a single step of length 20 finds no roots, and the
final window `(0, 10)` is emitted. -/
theorem determine_visibility_end_behavior_witness :
    (vfLoop 10 [((20 : ℚ), ([] : List ℚ))] 0
        (if (fun _ => (1 : ℚ)) (0 : ℚ) > 0 then some 0 else none) []).2.1 = some 0 ∧
    (0 : ℚ) < 1 ∧
    determine_visibility (fun _ => (1 : ℚ)) 0 10 [((20 : ℚ), ([] : List ℚ))] =
      Except.ok
        ((vfLoop 10 [((20 : ℚ), ([] : List ℚ))] 0
          (if (fun _ => (1 : ℚ)) (0 : ℚ) > 0 then some 0 else none) []).2.2 ++ [(0, 10)]) :=
  ⟨by decide, by norm_num,
    (determine_visibility_end_behavior (fun _ => (1 : ℚ)) 0 10
      [((20 : ℚ), ([] : List ℚ))]).2.1 0 (by decide) (by norm_num)⟩

/-- C1 (counterexample): over the search interval `(0, 10)` with visibility
positive at the start, one adaptive step of length 20 (steps are not clamped
to the interval end) and a closing root at 15 inside that subinterval, the
returned window is `(0, 15)`, whose end exceeds `interval.end = 10`. -/
theorem determine_visibility_window_past_end :
    determine_visibility (fun _ => (1 : ℚ)) 0 10 [((20 : ℚ), [(15 : ℚ)])] =
      Except.ok [(0, 15)] ∧
    ¬ ((15 : ℚ) ≤ 10) :=
  ⟨by norm_num [determine_visibility, vfLoop, processRoots, List.filter], by norm_num⟩

/-- The concatenation of the per-iteration root lists actually processed by
`vfLoop` (after the `subinterval_start ≤ root ≤ subinterval_end` filter), in
processing order. -/
def filteredRoots (end_time : ℚ) : List (ℚ × List ℚ) → ℚ → List ℚ
  | [], _ => []
  | (step, rts) :: rest, subinterval_start =>
    if subinterval_start < end_time then
      (rts.filter fun root =>
          root ≤ subinterval_start + step ∧ root ≥ subinterval_start) ++
        filteredRoots end_time rest (subinterval_start + step)
    else []

theorem processRoots_append (l1 l2 : List ℚ) (st : Option ℚ × List (ℚ × ℚ)) :
    processRoots (l1 ++ l2) st = processRoots l2 (processRoots l1 st) :=
  List.foldl_append _ _ _ _

theorem vfLoop_eq_processRoots (qe : ℚ) : ∀ (trace : List (ℚ × List ℚ)) (s : ℚ)
    (acc : Option ℚ) (out : List (ℚ × ℚ)),
    (vfLoop qe trace s acc out).2 = processRoots (filteredRoots qe trace s) (acc, out) := by
  intro trace
  induction trace with
  | nil =>
    intro s acc out
    rfl
  | cons p rest ih =>
    intro s acc out
    obtain ⟨step, rts⟩ := p
    rw [vfLoop, filteredRoots]
    split_ifs with hs
    · rw [processRoots_append]
      exact ih _ _ _
    · rfl

theorem filteredRoots_sublist (qe : ℚ) : ∀ (trace : List (ℚ × List ℚ)) (s : ℚ),
    (filteredRoots qe trace s).Sublist (trace.map Prod.snd).flatten := by
  intro trace
  induction trace with
  | nil =>
    intro s
    exact List.nil_sublist _
  | cons p rest ih =>
    intro s
    obtain ⟨step, rts⟩ := p
    rw [filteredRoots]
    simp only [List.map_cons, List.flatten_cons]
    split_ifs with hs
    · exact List.Sublist.append (List.filter_sublist _) (ih _)
    · exact List.nil_sublist _

/-- Invariant of the access-toggling fold: starting from well-formed emitted
windows and a well-placed open access, processing a strictly increasing list
of roots inside `(qs, qe)` keeps all windows inside `[qs, qe)`, strictly
ordered and disjoint, and keeps any open access after every emitted
window. -/
theorem processRoots_invariant (qs qe : ℚ) :
    ∀ (roots : List ℚ) (acc : Option ℚ) (out : List (ℚ × ℚ)),
    (∀ r ∈ roots, qs < r ∧ r < qe) →
    roots.Pairwise (· < ·) →
    (∀ w ∈ out, qs ≤ w.1 ∧ w.1 < w.2 ∧ w.2 < qe) →
    out.Chain' (fun a b => a.2 < b.1) →
    (∀ a, acc = some a → qs ≤ a ∧ a < qe ∧ ∀ w ∈ out, w.2 < a) →
    (∀ r ∈ roots, ∀ a, acc = some a → a < r) →
    (∀ r ∈ roots, ∀ w ∈ out, w.2 < r) →
    (∀ w ∈ (processRoots roots (acc, out)).2, qs ≤ w.1 ∧ w.1 < w.2 ∧ w.2 < qe) ∧
    (processRoots roots (acc, out)).2.Chain' (fun a b => a.2 < b.1) ∧
    (∀ a, (processRoots roots (acc, out)).1 = some a →
      qs ≤ a ∧ a < qe ∧ ∀ w ∈ (processRoots roots (acc, out)).2, w.2 < a) := by
  intro roots
  induction roots with
  | nil =>
    intro acc out _ _ hout hchain hacc _ _
    exact ⟨hout, hchain, hacc⟩
  | cons r rs ih =>
    intro acc out hb hp hout hchain hacc hfa hfw
    have hr := hb r (List.mem_cons_self _ _)
    cases acc with
    | none =>
      rw [show processRoots (r :: rs) (none, out) = processRoots rs (some r, out) from rfl]
      refine ih (some r) out (fun r' hr' => hb r' (List.mem_cons_of_mem _ hr')) hp.of_cons
        hout hchain ?_ ?_ ?_
      · intro a ha
        obtain rfl := Option.some.inj ha
        exact ⟨le_of_lt hr.1, hr.2, fun w hw => hfw r (List.mem_cons_self _ _) w hw⟩
      · intro r' hr' a ha
        obtain rfl := Option.some.inj ha
        exact List.rel_of_pairwise_cons hp hr'
      · intro r' hr' w hw
        exact hfw r' (List.mem_cons_of_mem _ hr') w hw
    | some a =>
      rw [show processRoots (r :: rs) (some a, out) =
        processRoots rs (none, out ++ [(a, r)]) from rfl]
      have haq := hacc a rfl
      have har : a < r := hfa r (List.mem_cons_self _ _) a rfl
      refine ih none (out ++ [(a, r)]) (fun r' hr' => hb r' (List.mem_cons_of_mem _ hr'))
        hp.of_cons ?_ ?_ ?_ ?_ ?_
      · intro w hw
        rcases List.mem_append.mp hw with hw | hw
        · exact hout w hw
        · simp only [List.mem_singleton] at hw
          subst hw
          exact ⟨haq.1, har, hr.2⟩
      · rw [List.chain'_append]
        refine ⟨hchain, List.chain'_singleton _, ?_⟩
        intro x hx y hy
        simp only [List.head?_cons, Option.mem_def, Option.some.injEq] at hy
        subst hy
        exact haq.2.2 x (List.mem_of_mem_getLast? hx)
      · intro a' ha'
        exact Option.noConfusion ha'
      · intro r' _ a' ha'
        exact Option.noConfusion ha'
      · intro r' hr' w hw
        rcases List.mem_append.mp hw with hw | hw
        · exact hfw r' (List.mem_cons_of_mem _ hr') w hw
        · simp only [List.mem_singleton] at hw
          subst hw
          exact List.rel_of_pairwise_cons hp hr'

/-- C1 (amended): if `interval.start < interval.end`, every root the cubic
solver reports over the run lies strictly inside the search interval, and the
reported roots are strictly increasing across the run, then every returned
window `(s, e)` satisfies `interval.start ≤ s < e ≤ interval.end` and the
windows are sorted ascending and pairwise disjoint
(`w.end < next w.start`).  Without those provisos a window may end past
`interval.end` (see the counterexample). -/
theorem determine_visibility_windows (vis : ℚ → ℚ) (qs qe : ℚ)
    (trace : List (ℚ × List ℚ)) (hq : qs < qe)
    (hroots : ∀ r ∈ (trace.map Prod.snd).flatten, qs < r ∧ r < qe)
    (hsorted : ((trace.map Prod.snd).flatten).Pairwise (· < ·)) :
    ∀ l, determine_visibility vis qs qe trace = Except.ok l →
      (∀ w ∈ l, qs ≤ w.1 ∧ w.1 < w.2 ∧ w.2 ≤ qe) ∧
      l.Chain' (fun a b => a.2 < b.1) := by
  intro l h
  have hsub : (filteredRoots qe trace qs).Sublist (trace.map Prod.snd).flatten :=
    filteredRoots_sublist qe trace qs
  have hFb : ∀ r ∈ filteredRoots qe trace qs, qs < r ∧ r < qe :=
    fun r hr => hroots r (List.Sublist.mem hr hsub)
  have hFp : (filteredRoots qe trace qs).Pairwise (· < ·) := hsorted.sublist hsub
  have hinv := processRoots_invariant qs qe (filteredRoots qe trace qs)
    (if vis qs > 0 then some qs else none) [] hFb hFp
    (by intro w hw; cases hw) List.chain'_nil
    (by
      intro a ha
      split_ifs at ha with hv
      obtain rfl := Option.some.inj ha
      exact ⟨le_rfl, hq, fun w hw => absurd hw (List.not_mem_nil _)⟩)
    (by
      intro r hrm a ha
      split_ifs at ha with hv
      obtain rfl := Option.some.inj ha
      exact (hFb r hrm).1)
    (by intro r _ w hw; cases hw)
  have hd2 : (vfLoop qe trace qs (if vis qs > 0 then some qs else none) []).2 =
      processRoots (filteredRoots qe trace qs) ((if vis qs > 0 then some qs else none), []) :=
    vfLoop_eq_processRoots qe trace qs _ []
  have hd : determine_visibility vis qs qe trace =
      match (vfLoop qe trace qs (if vis qs > 0 then some qs else none) []).2.1 with
      | some a =>
        if vis qe ≤ 0 then Except.error "Visibility interval started but did not end"
        else Except.ok
          ((vfLoop qe trace qs (if vis qs > 0 then some qs else none) []).2.2 ++ [(a, qe)])
      | none =>
        Except.ok (vfLoop qe trace qs (if vis qs > 0 then some qs else none) []).2.2 := rfl
  have hfst := congrArg Prod.fst hd2
  have hsnd := congrArg Prod.snd hd2
  rw [hd, hfst, hsnd] at h
  rcases hacc : (processRoots (filteredRoots qe trace qs)
      ((if vis qs > 0 then some qs else none), [])).1 with _ | a
  · rw [hacc] at h
    dsimp only at h
    obtain rfl := Except.ok.inj h
    exact ⟨fun w hw => ⟨(hinv.1 w hw).1, (hinv.1 w hw).2.1, le_of_lt (hinv.1 w hw).2.2⟩,
      hinv.2.1⟩
  · rw [hacc] at h
    dsimp only at h
    by_cases hv : vis qe ≤ 0
    · rw [if_pos hv] at h
      exact absurd h (by simp)
    · rw [if_neg hv] at h
      obtain rfl := Except.ok.inj h
      have hap := hinv.2.2 a hacc
      constructor
      · intro w hw
        rcases List.mem_append.mp hw with hw | hw
        · exact ⟨(hinv.1 w hw).1, (hinv.1 w hw).2.1, le_of_lt (hinv.1 w hw).2.2⟩
        · simp only [List.mem_singleton] at hw
          subst hw
          exact ⟨hap.1, hap.2.1, le_rfl⟩
      · rw [List.chain'_append]
        refine ⟨hinv.2.1, List.chain'_singleton _, ?_⟩
        intro x hx y hy
        simp only [List.head?_cons, Option.mem_def, Option.some.injEq] at hy
        subst hy
        exact hap.2.2 x (List.mem_of_mem_getLast? hx)

/-- Witness for `determine_visibility_windows`: search interval `(0, 10)`,
visibility positive at the start, one step of length 20 whose cubic has the
two roots `3 < 7` inside `(0, 10)`; the returned windows `[(0,3), (7,10)]`
are well-formed, sorted and disjoint. -/
theorem determine_visibility_windows_witness :
    (0 : ℚ) < 10 ∧
    (∀ r ∈ (([((20 : ℚ), [(3 : ℚ), 7])].map Prod.snd).flatten), (0 : ℚ) < r ∧ r < 10) ∧
    ((([((20 : ℚ), [(3 : ℚ), 7])].map Prod.snd).flatten).Pairwise (· < ·)) ∧
    determine_visibility (fun _ => (1 : ℚ)) 0 10 [((20 : ℚ), [(3 : ℚ), 7])] =
      Except.ok [(0, 3), (7, 10)] ∧
    ((∀ w ∈ [((0 : ℚ), (3 : ℚ)), (7, 10)], (0 : ℚ) ≤ w.1 ∧ w.1 < w.2 ∧ w.2 ≤ 10) ∧
      ([((0 : ℚ), (3 : ℚ)), (7, 10)].Chain' (fun a b => a.2 < b.1))) := by
  have heval : determine_visibility (fun _ => (1 : ℚ)) 0 10 [((20 : ℚ), [(3 : ℚ), 7])] =
      Except.ok [(0, 3), (7, 10)] := by
    norm_num [determine_visibility, vfLoop, processRoots, List.filter]
  refine ⟨by norm_num, ?_, ?_, heval,
    determine_visibility_windows (fun _ => (1 : ℚ)) 0 10 [((20 : ℚ), [(3 : ℚ), 7])]
      (by norm_num) ?_ ?_ [(0, 3), (7, 10)] heval⟩ <;>
    norm_num [List.Pairwise]

/-! ## `kaos.utils.time_conversion.utc_to_unix`

`utc_to_unix` is `calendar.timegm(datetime.strptime(s,
'%Y%m%dT%H:%M:%S.%f').utctimetuple())`.  The stdlib pieces are embedded from
their documented/CPython behaviour:
`strptime` matches the case-insensitive regex
`(\d{4})(\d\d|\d)(\d\d|\d)T(2[0-3]|[0-1]\d|\d):([0-5]\d|\d):(6[0-1]|[0-5]\d|\d)\.([0-9]{1,6})`
against the whole string, then `datetime(...)` validates the calendar date
(proleptic Gregorian, year ≥ 1, second ≤ 59 even though the regex admits
60/61); `utctimetuple` drops the microseconds; `timegm` is pure integer
arithmetic on days since the epoch and may be negative.  Since the digit
fields are separated by the literals `T`, `:` and `.`, the regex's
backtracking reduces to: the month/day digit run has length 2, 3 or 4
(split (1,1), (2,1), (2,2)), and each clock field is one digit (any) or two
digits bounded by the alternation (23 / 59 / 61). -/

/-- Numeric value of a digit character. -/
def charDigit (c : Char) : ℕ := c.toNat - 48

/-- Value of a digit run. -/
def digitsVal (ds : List Char) : ℕ := ds.foldl (fun acc c => 10 * acc + charDigit c) 0

/-- The `%m%d` digit run between the year and the `T`, split by the regex's
backtracking: 2, 3 or 4 digits. -/
def parseMonthDay : List Char → Option (ℕ × ℕ)
  | [a, b] => some (charDigit a, charDigit b)
  | [a, b, c] => some (10 * charDigit a + charDigit b, charDigit c)
  | [a, b, c, d] => some (10 * charDigit a + charDigit b, 10 * charDigit c + charDigit d)
  | _ => none

/-- A one- or two-digit clock field whose two-digit values are bounded by
the regex alternation (`%H` ≤ 23, `%M` ≤ 59, `%S` ≤ 61). -/
def parseField2 (maxv : ℕ) : List Char → Option ℕ
  | [c] => some (charDigit c)
  | [c1, c2] =>
    let v := 10 * charDigit c1 + charDigit c2
    if v ≤ maxv then some v else none
  | _ => none

/-- Length of a month in the proleptic Gregorian calendar (what
`datetime` validates against). -/
def daysInMonth (y m : ℕ) : ℕ :=
  if m = 2 then
    if (y % 4 = 0 ∧ y % 100 ≠ 0) ∨ y % 400 = 0 then 29 else 28
  else if m = 4 ∨ m = 6 ∨ m = 9 ∨ m = 11 then 30 else 31

/-- The validation performed by the `datetime` constructor (the year is at
most 9999 already since `%Y` is four digits; seconds 60 and 61 pass the
regex but are rejected here). -/
def validDateTime (y mo d s : ℕ) : Bool :=
  1 ≤ y ∧ 1 ≤ mo ∧ mo ≤ 12 ∧ 1 ≤ d ∧ d ≤ daysInMonth y mo ∧ s ≤ 59

/-- Days from 1970-01-01 to year/month/day (proleptic Gregorian), negative
for earlier dates — the day count underlying `calendar.timegm`. -/
def daysFromCivil (y mo d : ℤ) : ℤ :=
  let y' := if mo ≤ 2 then y - 1 else y
  let era := y' / 400
  let yoe := y' - era * 400
  let doy := (153 * (if 2 < mo then mo - 3 else mo + 9) + 2) / 5 + d - 1
  let doe := yoe * 365 + yoe / 4 - yoe / 100 + doy
  era * 146097 + doe - 719468

/-- `calendar.timegm` on the parsed (already validated) time tuple:
integer Unix seconds, sub-second digits dropped. -/
def timegm (y mo d h mi s : ℕ) : ℤ :=
  daysFromCivil y mo d * 86400 + h * 3600 + mi * 60 + s

/-- The `strptime` + `datetime` stage: the parsed `(y, mo, d, h, mi, s)`
when the string matches the format and is a valid date, else `none`. -/
def parseTimeString (cs : List Char) : Option (ℕ × ℕ × ℕ × ℕ × ℕ × ℕ) :=
  match cs with
  | c1 :: c2 :: c3 :: c4 :: rest =>
    if c1.isDigit ∧ c2.isDigit ∧ c3.isDigit ∧ c4.isDigit then
      let y := digitsVal [c1, c2, c3, c4]
      match parseMonthDay (rest.takeWhile Char.isDigit),
          rest.dropWhile Char.isDigit with
      | some (mo, d), t :: rest3 =>
        if t = 'T' ∨ t = 't' then
          match parseField2 23 (rest3.takeWhile Char.isDigit),
              rest3.dropWhile Char.isDigit with
          | some h, colon1 :: rest5 =>
            if colon1 = ':' then
              match parseField2 59 (rest5.takeWhile Char.isDigit),
                  rest5.dropWhile Char.isDigit with
              | some mi, colon2 :: rest7 =>
                if colon2 = ':' then
                  match parseField2 61 (rest7.takeWhile Char.isDigit),
                      rest7.dropWhile Char.isDigit with
                  | some s, dot :: rest9 =>
                    if dot = '.' then
                      let fs := rest9.takeWhile Char.isDigit
                      if 1 ≤ fs.length ∧ fs.length ≤ 6 ∧
                          rest9.dropWhile Char.isDigit = [] ∧
                          validDateTime y mo d s then
                        some (y, mo, d, h, mi, s)
                      else none
                    else none
                  | _, _ => none
                else none
              | _, _ => none
            else none
          | _, _ => none
        else none
      | _, _ => none
    else none
  | _ => none

/-- `kaos.utils.time_conversion.utc_to_unix(time_string)`: `ValueError` on a
string `strptime`/`datetime` rejects, otherwise the `timegm` of the parsed
tuple.  There is no lower bound check: dates before 1970 are accepted and
produce negative timestamps. -/
def utc_to_unix (time_string : String) : Except String ℤ :=
  match parseTimeString time_string.toList with
  | none => Except.error "ValueError: time data does not match format or invalid date"
  | some (y, mo, d, h, mi, s) => Except.ok (timegm y mo d h mi s)

/-- C7: the embedded converter agrees with the repository's own test vectors
(`test/utils/test_utils.py`): the epoch maps to 0, a modern date and a far
future date map to their documented epochs, sub-second digits are truncated,
and malformed strings are rejected — but a pre-1970 date is **accepted** and
yields a negative timestamp instead of the `ValueError` the claim
requires. -/
theorem utc_to_unix_accepts_pre_epoch :
    utc_to_unix "19691231T23:59:59.00" = Except.ok (-1) ∧
    utc_to_unix "19700101T00:00:00.00" = Except.ok 0 ∧
    utc_to_unix "20181118T04:00:09.00" = Except.ok 1542513609 ∧
    utc_to_unix "19700101T01:06:40.999" = Except.ok 4000 ∧
    utc_to_unix "23000912T01:01:01.00" = Except.ok 10435741261 ∧
    utc_to_unix "23000912T01:01:01.0000001" =
      Except.error "ValueError: time data does not match format or invalid date" ∧
    utc_to_unix "17000100T01:00:00.00" =
      Except.error "ValueError: time data does not match format or invalid date" ∧
    utc_to_unix "17000132T00:00:60.00" =
      Except.error "ValueError: time data does not match format or invalid date" := by
  refine ⟨by decide, by decide, by decide, by decide, by decide, by decide, by decide, by decide⟩

end Kaos
